import Mathlib

/-!
# Verification of the BEIR toy-dataset validator

Shallow embedding of `scripts/validate_toy_dataset.py`.

Modelling conventions:
* Python `dict` is modelled as an insertion-ordered association list
  (`Dict`).  `dset` mirrors Python dict assignment: an existing key keeps
  its position and gets the new value, a fresh key is appended at the end.
* JSON values are modelled by the inductive `Json`.  JSON numbers are
  modelled as integers (the validator never does arithmetic on JSON
  values; only Python truthiness and `str` coercion matter, which the
  model reproduces for integer numerals).
* `json.loads` is treated as an oracle: a line of `corpus.jsonl` or
  `queries.jsonl` is either blank after stripping (`JLine.blank`), fails
  to parse (`JLine.invalid`), or parses to a JSON object given by its raw
  key/value pairs (`JLine.parsed`); the Python dict the parser returns is
  rebuilt with `dictOfPairs` (duplicate keys: last value wins, first
  position kept, exactly as in CPython).
* `csv.reader(delimiter='\t')` is likewise treated as an oracle: a qrels
  row is the list of column strings it yields (an empty physical line
  yields `[]`).  Quoting of fields is not exercised by any claim and is
  not modelled.
* `int(float(s))` is modelled by `parse_score`, which parses the decimal
  literal exactly and truncates toward zero.  IEEE-754 artefacts
  (rounding of literals with more than 17 significant digits, overflow
  beyond 1e308, accepted underscores between digits, non-ASCII digits)
  are idealized; no claim depends on them.  `inf`/`nan` literals make
  `int(...)` raise in Python and make `parse_score` return `none` here;
  both end in the same `ParseError`.
-/

/-- Insertion-ordered string-keyed map, the model of a Python `dict`. -/
abbrev Dict (α : Type) : Type := List (String × α)

/-- `k in d` for a Python dict. -/
def dcontains : Dict α → String → Bool
  | [], _ => false
  | p :: d, k => p.1 == k || dcontains d k

/-- `d.get(k)` for a Python dict (`None` as `none`). -/
def dget : Dict α → String → Option α
  | [], _ => none
  | p :: d, k => if p.1 == k then some p.2 else dget d k

/-- `d[k] = v` for a Python dict: replace in place if the key exists,
append otherwise. -/
def dset : Dict α → String → α → Dict α
  | [], k, v => [(k, v)]
  | p :: d, k, v => if p.1 == k then (k, v) :: d else p :: dset d k v

/-- `list(d.keys())`. -/
def dkeys (d : Dict α) : List String :=
  d.map Prod.fst

/-- `d.update(l)`: assign every pair of `l` into `d`, in order. -/
def dupdate (d : Dict α) (l : List (String × α)) : Dict α :=
  l.foldl (fun a p => dset a p.1 p.2) d

/-- The Python dict built by inserting the given pairs in order into an
empty dict (what `json.loads` does with the key/value pairs of an
object literal). -/
def dictOfPairs (l : List (String × α)) : Dict α :=
  dupdate [] l

/-- `a` if it is `some`, otherwise `b` (Option bias used to state
`dupdate` lookups). -/
def ofirst : Option α → Option α → Option α
  | some x, _ => some x
  | none, b => b

/-- The value attached to the LAST pair of `l` carrying key `k`. -/
def lookup_last : List (String × α) → String → Option α
  | [], _ => none
  | p :: l, k => ofirst (lookup_last l k) (if p.1 == k then some p.2 else none)

/-- JSON values, as produced by `json.loads`.  Numbers are modelled as
integers (see the header comment). -/
inductive Json where
  | null : Json
  | bool : Bool → Json
  | num : Int → Json
  | str : String → Json
  | arr : List Json → Json
  | obj : List (String × Json) → Json

/-- Python truthiness (`bool(x)`) of a JSON value. -/
def Json.truthy : Json → Bool
  | .null => false
  | .bool b => b
  | .num n => n != 0
  | .str s => s != ""
  | .arr xs => !xs.isEmpty
  | .obj fs => !fs.isEmpty

/-- Escape backslashes and the chosen quote character, as Python's
`repr` does for strings (escapes of non-printable characters are not
modelled; no claim exercises them). -/
def pyEscape (q : Char) (s : String) : String :=
  String.mk (s.toList.foldr
    (fun c acc => if c = '\\' || c = q then '\\' :: c :: acc else c :: acc) [])

/-- Python `repr` of a string: single-quoted, unless the string contains
a single quote and no double quote. -/
def pyStrQuote (s : String) : String :=
  if s.contains '\'' && !(s.contains '"') then
    "\"" ++ pyEscape '"' s ++ "\""
  else
    "'" ++ pyEscape '\'' s ++ "'"

mutual

/-- Python `repr` of a JSON value. -/
def Json.pyRepr : Json → String
  | .null => "None"
  | .bool b => if b then "True" else "False"
  | .num n => toString n
  | .str s => pyStrQuote s
  | .arr xs => "[" ++ String.intercalate ", " (pyReprList xs) ++ "]"
  | .obj fs => "\x7b" ++ String.intercalate ", " (pyReprFields fs) ++ "\x7d"

/-- `repr` of each element of a list. -/
def pyReprList : List Json → List String
  | [] => []
  | x :: xs => Json.pyRepr x :: pyReprList xs

/-- `repr` of each `key: value` entry of an object. -/
def pyReprFields : List (String × Json) → List String
  | [] => []
  | (k, v) :: fs => (pyStrQuote k ++ ": " ++ Json.pyRepr v) :: pyReprFields fs

end

/-- Python `str(x)` of a JSON value: the string itself for strings,
`repr` otherwise (int, bool, None, list, dict all print as their repr). -/
def Json.pyStr : Json → String
  | .str s => s
  | j => j.pyRepr

/-- One physical line of a JSONL file, after `line.strip()` and
`json.loads` (treated as oracles): blank, syntactically invalid, or a
parsed JSON object given by its raw key/value pairs. -/
inductive JLine where
  | blank : JLine
  | invalid : JLine
  | parsed : List (String × Json) → JLine

/-- The `ValueError`s the two loaders can raise (each carries the file
path and the 1-based line number its message reports). -/
inductive ParseErr where
  | invalidJson : String → Nat → ParseErr
  | noId : String → Nat → ParseErr
  | tooFewCols : String → Nat → Nat → List String → ParseErr
  | badScore : String → Nat → String → ParseErr
deriving DecidableEq

/-- File path carried by a loader error message. -/
def err_path : ParseErr → String
  | .invalidJson p _ => p
  | .noId p _ => p
  | .tooFewCols p _ _ _ => p
  | .badScore p _ _ => p

/-- 1-based line number carried by a loader error message. -/
def err_line : ParseErr → Nat
  | .invalidJson _ n => n
  | .noId _ n => n
  | .tooFewCols _ n _ _ => n
  | .badScore _ n _ => n

/-- `id_keys` default of `load_jsonl`. -/
def default_id_keys : List String := ["_id", "id"]

/-- `text_keys` default of `load_jsonl`. -/
def default_text_keys : List String :=
  ["text", "contents", "body", "passage", "question", "query"]

/-- The `doc_id` computed by the `for k in id_keys` loop of
`load_jsonl`: value of the first present identifier key, `None` when no
identifier key is present. -/
def first_id_val (id_keys : List String) (obj : Dict Json) : Json :=
  match id_keys with
  | [] => Json.null
  | k :: rest =>
    if dcontains obj k then (dget obj k).getD Json.null
    else first_id_val rest obj

/-- The dict comprehension
`{k: obj.get(k) for k in text_keys if k in obj}` of `load_jsonl`. -/
def text_prepop (text_keys : List String) (obj : Dict Json) : Dict Json :=
  text_keys.foldl
    (fun d k => if dcontains obj k then dset d k ((dget obj k).getD Json.null) else d)
    []

/-- The record stored per line: the text-key pre-population followed by
`data.update(obj)`. -/
def build_record (text_keys : List String) (obj : Dict Json) : Dict Json :=
  dupdate (text_prepop text_keys obj) obj

/-- The loop body of `load_jsonl`, starting at 1-based line number `i`
with accumulator `items`. -/
def load_jsonl_loop (path : String) (id_keys text_keys : List String) :
    List JLine → Nat → Dict (Dict Json) → Except ParseErr (Dict (Dict Json))
  | [], _, items => Except.ok items
  | JLine.blank :: rest, i, items =>
      load_jsonl_loop path id_keys text_keys rest (i + 1) items
  | JLine.invalid :: _, i, _ => Except.error (ParseErr.invalidJson path i)
  | JLine.parsed pairs :: rest, i, items =>
      let obj := dictOfPairs pairs
      let did := first_id_val id_keys obj
      if did.truthy then
        load_jsonl_loop path id_keys text_keys rest (i + 1)
          (dset items did.pyStr (build_record text_keys obj))
      else
        Except.error (ParseErr.noId path i)

/-- `load_jsonl(path, id_keys, text_keys)` over the (pre-lexed) lines of
the file. -/
def load_jsonl (path : String) (lines : List JLine)
    (id_keys : List String := default_id_keys)
    (text_keys : List String := default_text_keys) :
    Except ParseErr (Dict (Dict Json)) :=
  load_jsonl_loop path id_keys text_keys lines 1 []

/-- Python `s.strip()`: drop ASCII whitespace from both ends (Python
also strips a few rarer whitespace code points; no claim uses them). -/
def py_strip (s : String) : String :=
  String.mk (((s.toList.dropWhile Char.isWhitespace).reverse.dropWhile
    Char.isWhitespace).reverse)

/-- Numeric value of a list of decimal digit characters. -/
def digitsToNat (ds : List Char) : Nat :=
  ds.foldl (fun a c => 10 * a + (c.toNat - 48)) 0

/-- `m * 10 ^ e` truncated toward zero (for negative `e`), i.e. the
integer `int(...)` extracts from the decimal literal with mantissa `m`
and decimal exponent `e`. -/
def truncExp (m : Int) (e : Int) : Int :=
  if 0 ≤ e then m * 10 ^ e.toNat else m.tdiv (10 ^ (-e).toNat)

/-- `int(float(s))`: parse `s` as a Python float literal and truncate
toward zero; `none` when either conversion raises. -/
def parse_score (s : String) : Option Int :=
  let cs := s.toList
  let signed : Int × List Char :=
    match cs with
    | '+' :: r => (1, r)
    | '-' :: r => (-1, r)
    | _ => (1, cs)
  let ip := signed.2.takeWhile Char.isDigit
  let r1 := signed.2.dropWhile Char.isDigit
  let fracRest : List Char × List Char :=
    match r1 with
    | '.' :: r => (r.takeWhile Char.isDigit, r.dropWhile Char.isDigit)
    | _ => ([], r1)
  let fp := fracRest.1
  if ip.isEmpty && fp.isEmpty then none
  else
    let m : Int := signed.1 * (digitsToNat (ip ++ fp) : Int)
    let e0 : Int := -(fp.length : Int)
    match fracRest.2 with
    | [] => some (truncExp m e0)
    | c :: r3 =>
      if c = 'e' || c = 'E' then
        let esigned : Int × List Char :=
          match r3 with
          | '+' :: r => (1, r)
          | '-' :: r => (-1, r)
          | _ => (1, r3)
        let ed := esigned.2.takeWhile Char.isDigit
        let r5 := esigned.2.dropWhile Char.isDigit
        if ed.isEmpty || !r5.isEmpty then none
        else some (truncExp m (e0 + esigned.1 * (digitsToNat ed : Int)))
      else none

/-- `qrels.setdefault(qid, dict())[docid] = score` for the parsed entry
`(qid, docid, score)`. -/
def qrels_add (q : Dict (Dict Int)) (e : String × String × Int) : Dict (Dict Int) :=
  dset q e.1 (dset ((dget q e.1).getD []) e.2.1 e.2.2)

/-- The loop body of `load_qrels`, starting at 1-based line number `i`
with accumulator `q`. -/
def load_qrels_loop (path : String) :
    List (List String) → Nat → Dict (Dict Int) → Except ParseErr (Dict (Dict Int))
  | [], _, q => Except.ok q
  | cols :: rest, i, q =>
    if cols.isEmpty then load_qrels_loop path rest (i + 1) q
    else if cols.length < 3 then
      Except.error (ParseErr.tooFewCols path i cols.length cols)
    else
      match parse_score (py_strip (cols.getD 2 "")) with
      | none => Except.error (ParseErr.badScore path i (py_strip (cols.getD 2 "")))
      | some n =>
        load_qrels_loop path rest (i + 1)
          (qrels_add q (py_strip (cols.getD 0 ""), py_strip (cols.getD 1 ""), n))

/-- `load_qrels(path)` over the rows produced by the tab-delimited
reader. -/
def load_qrels (path : String) (rows : List (List String)) :
    Except ParseErr (Dict (Dict Int)) :=
  load_qrels_loop path rows 1 []

/-- `[q for q in qrels.keys() if q not in queries]` (main, consistency
check). -/
def missing_queries (qrels : Dict (Dict Int)) (queries : Dict (Dict Json)) :
    List String :=
  (dkeys qrels).filter (fun q => !(dcontains queries q))

/-- `s.add(x)` on a Python set, modelled as a duplicate-free list in
first-insertion order. -/
def set_add (s : List String) (x : String) : List String :=
  if s.contains x then s else s ++ [x]

/-- The `missing_docs` set of main's consistency check: doc ids
appearing as inner keys of qrels but absent from the corpus. -/
def missing_docs (qrels : Dict (Dict Int)) (corpus : Dict (Dict Json)) :
    List String :=
  qrels.foldl
    (fun acc p =>
      p.2.foldl (fun acc2 dp => if dcontains corpus dp.1 then acc2 else set_add acc2 dp.1) acc)
    []

/-- `doc.get(k1) or doc.get(k2) or ... or ""`: the first truthy value
among the listed fields, else the empty string. -/
def or_chain (doc : Dict Json) : List String → Json
  | [] => Json.str ""
  | k :: rest =>
    let v := (dget doc k).getD Json.null
    if v.truthy then v else or_chain doc rest

/-- The field priority of the sample-document text
(`doc.get("text") or doc.get("contents") or doc.get("body") or
doc.get("passage") or ""`). -/
def doc_text_keys : List String := ["text", "contents", "body", "passage"]

/-- Python `x[:n]`: defined for strings and lists (the first `n`
characters resp. elements), a `TypeError` (`none`) for every other
value. -/
def py_slice (n : Nat) : Json → Option Json
  | Json.str s => some (Json.str (String.mk (s.toList.take n)))
  | Json.arr xs => some (Json.arr (xs.take n))
  | _ => none

/-- `sample_keys(d, 1)`: one uniformly random key of `d` ([] when `d` is
empty).  The ambient randomness is abstracted into the index `pick`. -/
def sample_keys (d : Dict α) (pick : Nat) : List String :=
  let ks := dkeys d
  if ks.isEmpty then [] else [ks.getD (pick % ks.length) ""]

/-- What main prints for the sampled document: its id, its field names,
its title (`doc.get("title", "")`) and the first 400 characters of its
text; `none` when `text[:400]` raises a `TypeError`. -/
def report_doc (docid : String) (doc : Dict Json) :
    Option (String × List String × Json × Json) :=
  (py_slice 400 (or_chain doc doc_text_keys)).map
    (fun t => (docid, dkeys doc, (dget doc "title").getD (Json.str ""), t))

/-- `data_path / "corpus.jsonl"`. -/
def corpus_path (dp : String) : String := dp ++ "/corpus.jsonl"

/-- `data_path / "queries.jsonl"`. -/
def queries_path (dp : String) : String := dp ++ "/queries.jsonl"

/-- `data_path / "qrels" / (split + ".tsv")`. -/
def qrels_path (dp sp : String) : String := dp ++ "/qrels/" ++ sp ++ ".tsv"

/-- The dataset directory as main sees it: existence of the three
expected files and their (pre-lexed) contents. -/
structure DatasetFS where
  corpus_exists : Bool
  queries_exists : Bool
  qrels_exists : Bool
  corpus_lines : List JLine
  queries_lines : List JLine
  qrels_rows : List (List String)

/-- The `missing` list main builds before loading anything. -/
def missing_files (fs : DatasetFS) (dp sp : String) : List String :=
  (if fs.corpus_exists then [] else [corpus_path dp])
    ++ (if fs.queries_exists then [] else [queries_path dp])
    ++ (if fs.qrels_exists then [] else [qrels_path dp sp])

/-- Whether the sample-document printing runs without a `TypeError`
(true in particular when the corpus is empty). -/
def doc_sample_ok (corpus : Dict (Dict Json)) (pick : Nat) : Bool :=
  (sample_keys corpus pick).all
    (fun docid => (py_slice 400 (or_chain ((dget corpus docid).getD []) doc_text_keys)).isSome)

/-- `main(data_path, split)`: `some code` is the returned exit code,
`none` an exception escaping main (the sample-query printing and the
consistency warnings cannot raise, so only the sample-document text
slice appears in the crash condition).  `pick` abstracts the sampling
randomness. -/
def run_main (fs : DatasetFS) (dp sp : String) (pick : Nat) : Option Nat :=
  if !(missing_files fs dp sp).isEmpty then some 2
  else
    match load_jsonl (corpus_path dp) fs.corpus_lines with
    | Except.error _ => some 1
    | Except.ok corpus =>
      match load_jsonl (queries_path dp) fs.queries_lines with
      | Except.error _ => some 1
      | Except.ok _queries =>
        match load_qrels (qrels_path dp sp) fs.qrels_rows with
        | Except.error _ => some 1
        | Except.ok _qrels =>
          if doc_sample_ok corpus pick then some 0 else none

/-! ## Dictionary lemmas -/

theorem dcontains_iff_mem (d : Dict α) (k : String) :
    dcontains d k = true ↔ k ∈ dkeys d := by
  induction d with
  | nil => simp [dcontains, dkeys]
  | cons p d ih =>
    cases hbeq : p.1 == k
    · simp only [beq_eq_false_iff_ne, ne_eq] at hbeq
      have hsym : ¬ k = p.1 := fun he => hbeq (Eq.symm he)
      simp [dcontains, dkeys, hbeq, ih, hsym]
    · simp only [beq_iff_eq] at hbeq
      simp [dcontains, dkeys, hbeq]

theorem dget_isSome_eq (d : Dict α) (k : String) :
    (dget d k).isSome = dcontains d k := by
  induction d with
  | nil => rfl
  | cons p d ih =>
    cases hbeq : p.1 == k <;> simp [dget, dcontains, hbeq, ih]

theorem dget_eq_none_iff (d : Dict α) (k : String) :
    dget d k = none ↔ k ∉ dkeys d := by
  rw [← Option.not_isSome_iff_eq_none, dget_isSome_eq, ← dcontains_iff_mem]

theorem dget_dset (d : Dict α) (k : String) (v : α) (k2 : String) :
    dget (dset d k v) k2 = if k2 = k then some v else dget d k2 := by
  induction d with
  | nil =>
    by_cases h : k2 = k
    · simp [dset, dget, h]
    · have hsym : ¬ k = k2 := fun he => h (Eq.symm he)
      simp [dset, dget, h, hsym]
  | cons p d ih =>
    cases hp : p.1 == k
    · simp only [beq_eq_false_iff_ne, ne_eq] at hp
      cases hk2 : p.1 == k2
      · simp only [beq_eq_false_iff_ne, ne_eq] at hk2
        simp [dset, dget, hp, hk2, ih]
      · simp only [beq_iff_eq] at hk2
        have hne : ¬ k2 = k := fun he => hp (by rw [hk2, he])
        simp [dset, dget, hp, hk2, hne]
    · simp only [beq_iff_eq] at hp
      subst hp
      by_cases h : k2 = p.1
      · simp [dset, dget, h]
      · have hsym : ¬ p.1 = k2 := fun he => h (Eq.symm he)
        simp [dset, dget, h, hsym]

theorem dcontains_dset (d : Dict α) (k : String) (v : α) (k2 : String) :
    dcontains (dset d k v) k2 = (k2 == k || dcontains d k2) := by
  have hcomm : (k == k2) = (k2 == k) := by
    by_cases h : k = k2
    · simp [h]
    · have hsym : ¬ k2 = k := fun he => h (Eq.symm he)
      simp [h, hsym]
  induction d with
  | nil => simp [dset, dcontains, hcomm]
  | cons p d ih =>
    cases hp : p.1 == k
    · have h1 : dset (p :: d) k v = p :: dset d k v := by simp [dset, hp]
      rw [h1]
      have h2 : dcontains (p :: dset d k v) k2 = (p.1 == k2 || dcontains (dset d k v) k2) := rfl
      have h3 : dcontains (p :: d) k2 = (p.1 == k2 || dcontains d k2) := rfl
      rw [h2, h3, ih]
      cases p.1 == k2 <;> cases k2 == k <;> simp
    · simp only [beq_iff_eq] at hp
      subst hp
      have h1 : dset (p :: d) p.1 v = (p.1, v) :: d := by simp [dset]
      rw [h1]
      have h2 : dcontains ((p.1, v) :: d) k2 = (p.1 == k2 || dcontains d k2) := rfl
      have h3 : dcontains (p :: d) k2 = (p.1 == k2 || dcontains d k2) := rfl
      rw [h2, h3, show (p.1 == k2) = (k2 == p.1) from ?_]
      · cases k2 == p.1 <;> simp
      · by_cases h : p.1 = k2
        · simp [h]
        · have hsym : ¬ k2 = p.1 := fun he => h (Eq.symm he)
          simp [h, hsym]

theorem dkeys_dset (d : Dict α) (k : String) (v : α) :
    dkeys (dset d k v) = if dcontains d k then dkeys d else dkeys d ++ [k] := by
  induction d with
  | nil => simp [dset, dkeys, dcontains]
  | cons p d ih =>
    cases hp : p.1 == k
    · have h1 : dset (p :: d) k v = p :: dset d k v := by simp [dset, hp]
      have h2 : dcontains (p :: d) k = dcontains d k := by simp [dcontains, hp]
      rw [h1, h2]
      by_cases hc : dcontains d k
      · show p.1 :: dkeys (dset d k v) = _
        rw [ih]
        simp [dkeys, hc]
      · show p.1 :: dkeys (dset d k v) = _
        rw [ih]
        simp [dkeys, hc]
    · simp only [beq_iff_eq] at hp
      subst hp
      have h1 : dset (p :: d) p.1 v = (p.1, v) :: d := by simp [dset]
      have h2 : dcontains (p :: d) p.1 = true := by simp [dcontains]
      rw [h1, h2]
      simp [dkeys]

theorem length_dset (d : Dict α) (k : String) (v : α) :
    (dset d k v).length = if dcontains d k then d.length else d.length + 1 := by
  have h := congrArg List.length (dkeys_dset d k v)
  by_cases hc : dcontains d k <;>
    simpa [dkeys, hc] using h

theorem dget_dupdate (l : List (String × α)) (d : Dict α) (k : String) :
    dget (dupdate d l) k = ofirst (lookup_last l k) (dget d k) := by
  induction l generalizing d with
  | nil => simp [dupdate, lookup_last, ofirst]
  | cons a l ih =>
    rw [show dupdate d (a :: l) = dupdate (dset d a.1 a.2) l from rfl, ih, dget_dset]
    show _ = ofirst (ofirst (lookup_last l k) (if a.1 == k then some a.2 else none)) _
    cases hl : lookup_last l k
    · cases hk : a.1 == k
      · simp only [beq_eq_false_iff_ne, ne_eq] at hk
        have hsym : ¬ k = a.1 := fun he => hk (Eq.symm he)
        simp [ofirst, hk, hsym]
      · simp only [beq_iff_eq] at hk
        simp [ofirst, hk]
    · simp [ofirst]

theorem dget_dictOfPairs (l : List (String × α)) (k : String) :
    dget (dictOfPairs l) k = lookup_last l k := by
  rw [dictOfPairs, dget_dupdate]
  cases hl : lookup_last l k <;> simp [ofirst, dget]

theorem nodup_dkeys_dset (d : Dict α) (k : String) (v : α)
    (h : (dkeys d).Nodup) : (dkeys (dset d k v)).Nodup := by
  rw [dkeys_dset]
  by_cases hc : dcontains d k
  · simpa [hc]
  · have : k ∉ dkeys d := fun hm => hc ((dcontains_iff_mem d k).2 hm)
    simp [hc, List.nodup_append, h, this]

theorem nodup_dkeys_dupdate (l : List (String × α)) (d : Dict α)
    (h : (dkeys d).Nodup) : (dkeys (dupdate d l)).Nodup := by
  induction l generalizing d with
  | nil => simpa [dupdate]
  | cons a l ih =>
    exact ih (dset d a.1 a.2) (nodup_dkeys_dset d a.1 a.2 h)

theorem nodup_dkeys_dictOfPairs (l : List (String × α)) :
    (dkeys (dictOfPairs l)).Nodup :=
  nodup_dkeys_dupdate l [] (by simp [dkeys])

theorem length_dupdate (l : List (String × α)) (d : Dict α) :
    (dupdate d l).length
      = d.length
        + ((l.map Prod.fst).toFinset.filter (fun k => dcontains d k = false)).card := by
  induction l generalizing d with
  | nil => simp [dupdate]
  | cons a l ih =>
    rw [show dupdate d (a :: l) = dupdate (dset d a.1 a.2) l from rfl, ih, length_dset]
    have hfe : (l.map Prod.fst).toFinset.filter (fun k => dcontains (dset d a.1 a.2) k = false)
        = ((l.map Prod.fst).toFinset.filter (fun k => dcontains d k = false)).erase a.1 := by
      ext x
      simp only [Finset.mem_filter, Finset.mem_erase, dcontains_dset,
        Bool.or_eq_false_iff, beq_eq_false_iff_ne, ne_eq]
      tauto
    rw [hfe]
    have hmapcons : ((a :: l).map Prod.fst).toFinset
        = insert a.1 (l.map Prod.fst).toFinset := by
      simp
    rw [hmapcons]
    by_cases hc : dcontains d a.1 = true
    · have hpa : ¬ (dcontains d a.1 = false) := by simp [hc]
      rw [Finset.filter_insert]
      rw [if_neg hpa]
      have hnm : a.1 ∉ (l.map Prod.fst).toFinset.filter (fun k => dcontains d k = false) := by
        simp [Finset.mem_filter, hc]
      rw [Finset.erase_eq_of_not_mem hnm, hc]
      simp
    · have hc2 : dcontains d a.1 = false := by
        cases h : dcontains d a.1
        · rfl
        · exact absurd h hc
      rw [Finset.filter_insert, if_pos hc2, hc2]
      simp only [if_false, Bool.false_eq_true]
      by_cases hm : a.1 ∈ (l.map Prod.fst).toFinset.filter (fun k => dcontains d k = false)
      · rw [Finset.insert_eq_self.2 hm, Finset.card_erase_of_mem hm]
        have hcard : 1 ≤ ((l.map Prod.fst).toFinset.filter (fun k => dcontains d k = false)).card :=
          Finset.card_pos.2 ⟨a.1, hm⟩
        omega
      · rw [Finset.erase_eq_of_not_mem hm, Finset.card_insert_of_not_mem hm]
        omega

theorem length_dictOfPairs (l : List (String × α)) :
    (dictOfPairs l).length = (l.map Prod.fst).dedup.length := by
  rw [dictOfPairs, length_dupdate, ← List.card_toFinset]
  have : ∀ x ∈ (l.map Prod.fst).toFinset, (dcontains ([] : Dict α) x = false) ↔ True := by
    intro x _
    simp [dcontains]
  rw [Finset.filter_congr this, Finset.filter_True]
  simp

/-- A line that is not blank (it reaches `json.loads`). -/
def is_content_line : JLine → Bool
  | JLine.blank => false
  | _ => true

/-- Index and value of the first element satisfying `p` (0-based). -/
def first_bad (p : α → Bool) : List α → Option (Nat × α)
  | [] => none
  | x :: xs => if p x then some (0, x) else (first_bad p xs).map (fun q => (q.1 + 1, q.2))

/-- Whether a line makes `load_jsonl` raise: invalid JSON, or a falsy
extracted identifier (which covers both a missing identifier field and a
present-but-falsy one). -/
def bad_line (id_keys : List String) : JLine → Bool
  | JLine.blank => false
  | JLine.invalid => true
  | JLine.parsed pairs => !(first_id_val id_keys (dictOfPairs pairs)).truthy

/-- The error `load_jsonl` raises at 1-based line `n` for a bad line. -/
def line_err (path : String) (n : Nat) : JLine → ParseErr
  | JLine.invalid => ParseErr.invalidJson path n
  | _ => ParseErr.noId path n

/-- The `(key, record)` pair a line contributes to the result of
`load_jsonl` (none for blank, invalid or falsy-id lines). -/
def line_entry (id_keys text_keys : List String) : JLine → Option (String × Dict Json)
  | JLine.parsed pairs =>
    let obj := dictOfPairs pairs
    let did := first_id_val id_keys obj
    if did.truthy then some (did.pyStr, build_record text_keys obj) else none
  | _ => none

/-- All `(key, record)` pairs contributed by a list of lines, in file
order. -/
def jsonl_entries (id_keys text_keys : List String) (lines : List JLine) :
    List (String × Dict Json) :=
  lines.filterMap (line_entry id_keys text_keys)

theorem load_jsonl_loop_eq (path : String) (id_keys text_keys : List String)
    (lines : List JLine) :
    ∀ (i : Nat) (items : Dict (Dict Json)),
      load_jsonl_loop path id_keys text_keys lines i items =
        match first_bad (bad_line id_keys) lines with
        | some (j, l) => Except.error (line_err path (i + j) l)
        | none => Except.ok (dupdate items (jsonl_entries id_keys text_keys lines)) := by
  induction lines with
  | nil =>
    intro i items
    simp [load_jsonl_loop, first_bad, jsonl_entries, dupdate]
  | cons l rest ih =>
    intro i items
    cases l with
    | blank =>
      rw [show load_jsonl_loop path id_keys text_keys (JLine.blank :: rest) i items
            = load_jsonl_loop path id_keys text_keys rest (i + 1) items from rfl, ih]
      have hb : bad_line id_keys JLine.blank = false := rfl
      cases hfb : first_bad (bad_line id_keys) rest with
      | none =>
        simp [first_bad, hb, hfb, jsonl_entries, line_entry]
      | some q =>
        obtain ⟨j, x⟩ := q
        have h1 : i + 1 + j = i + (j + 1) := by omega
        simp [first_bad, hb, hfb, h1]
    | invalid =>
      simp [load_jsonl_loop, first_bad, bad_line, line_err]
    | parsed pairs =>
      cases htr : (first_id_val id_keys (dictOfPairs pairs)).truthy with
      | false =>
        have hb : bad_line id_keys (JLine.parsed pairs) = true := by
          simp [bad_line, htr]
        rw [show load_jsonl_loop path id_keys text_keys (JLine.parsed pairs :: rest) i items
              = Except.error (ParseErr.noId path i) from by
            simp [load_jsonl_loop, htr]]
        simp [first_bad, hb, line_err]
      | true =>
        have hb : bad_line id_keys (JLine.parsed pairs) = false := by
          simp [bad_line, htr]
        have hstep : load_jsonl_loop path id_keys text_keys (JLine.parsed pairs :: rest) i items
            = load_jsonl_loop path id_keys text_keys rest (i + 1)
                (dset items (first_id_val id_keys (dictOfPairs pairs)).pyStr
                  (build_record text_keys (dictOfPairs pairs))) := by
          simp [load_jsonl_loop, htr]
        rw [hstep, ih]
        have hent : line_entry id_keys text_keys (JLine.parsed pairs)
            = some ((first_id_val id_keys (dictOfPairs pairs)).pyStr,
                build_record text_keys (dictOfPairs pairs)) := by
          simp [line_entry, htr]
        cases hfb : first_bad (bad_line id_keys) rest with
        | none =>
          simp [first_bad, hb, hfb, jsonl_entries, hent, dupdate]
        | some q =>
          obtain ⟨j, x⟩ := q
          have h1 : i + 1 + j = i + (j + 1) := by omega
          simp [first_bad, hb, hfb, h1]

/-- Whether a qrels row makes `load_qrels` raise: non-empty with fewer
than 3 columns, or an unparseable score. -/
def row_bad : List String → Bool
  | [] => false
  | cols => if cols.length < 3 then true else (parse_score (py_strip (cols.getD 2 ""))).isNone

/-- The error `load_qrels` raises at 1-based line `n` for a bad row. -/
def row_err (path : String) (n : Nat) (cols : List String) : ParseErr :=
  if cols.length < 3 then ParseErr.tooFewCols path n cols.length cols
  else ParseErr.badScore path n (py_strip (cols.getD 2 ""))

/-- The `(qid, docid, score)` triple a good row contributes. -/
def row_entry : List String → Option (String × String × Int)
  | [] => none
  | cols =>
    if cols.length < 3 then none
    else (parse_score (py_strip (cols.getD 2 ""))).map
      (fun n => (py_strip (cols.getD 0 ""), py_strip (cols.getD 1 ""), n))

/-- All triples contributed by a list of rows, in file order. -/
def qrels_entries (rows : List (List String)) : List (String × String × Int) :=
  rows.filterMap row_entry

theorem load_qrels_loop_eq (path : String) (rows : List (List String)) :
    ∀ (i : Nat) (q : Dict (Dict Int)),
      load_qrels_loop path rows i q =
        match first_bad row_bad rows with
        | some (j, cols) => Except.error (row_err path (i + j) cols)
        | none => Except.ok ((qrels_entries rows).foldl qrels_add q) := by
  induction rows with
  | nil =>
    intro i q
    simp [load_qrels_loop, first_bad, qrels_entries]
  | cons cols rest ih =>
    intro i q
    cases cols with
    | nil =>
      rw [show load_qrels_loop path ([] :: rest) i q
            = load_qrels_loop path rest (i + 1) q from rfl, ih]
      have hb : row_bad [] = false := rfl
      cases hfb : first_bad row_bad rest with
      | none => simp [first_bad, hb, hfb, qrels_entries, row_entry]
      | some p =>
        obtain ⟨j, x⟩ := p
        have h1 : i + 1 + j = i + (j + 1) := by omega
        simp [first_bad, hb, hfb, h1]
    | cons c0 cs =>
      by_cases hlen : cs.length + 1 < 3
      · have hb : row_bad (c0 :: cs) = true := by simp [row_bad, hlen]
        have hstep : load_qrels_loop path ((c0 :: cs) :: rest) i q
            = Except.error (ParseErr.tooFewCols path i (c0 :: cs).length (c0 :: cs)) := by
          simp [load_qrels_loop, hlen]
        rw [hstep]
        simp [first_bad, hb, row_err, hlen]
      · cases hps : parse_score (py_strip ((c0 :: cs).getD 2 "")) with
        | none =>
          simp only [List.getD] at hps
          simp at hps
          have hb : row_bad (c0 :: cs) = true := by simp [row_bad, hlen, hps]
          have hstep : load_qrels_loop path ((c0 :: cs) :: rest) i q
              = Except.error (ParseErr.badScore path i (py_strip ((c0 :: cs).getD 2 ""))) := by
            simp [load_qrels_loop, hlen, hps]
          rw [hstep]
          simp [first_bad, hb, row_err, hlen]
        | some n =>
          simp only [List.getD] at hps
          simp at hps
          have hb : row_bad (c0 :: cs) = false := by simp [row_bad, hlen, hps]
          have hstep : load_qrels_loop path ((c0 :: cs) :: rest) i q
              = load_qrels_loop path rest (i + 1)
                  (qrels_add q (py_strip ((c0 :: cs).getD 0 ""), py_strip ((c0 :: cs).getD 1 ""), n)) := by
            simp [load_qrels_loop, hlen, hps]
          rw [hstep, ih]
          have hent : row_entry (c0 :: cs)
              = some (py_strip ((c0 :: cs).getD 0 ""), py_strip ((c0 :: cs).getD 1 ""), n) := by
            simp [row_entry, hlen, hps]
          cases hfb : first_bad row_bad rest with
          | none => simp [first_bad, hb, hfb, qrels_entries, hent]
          | some p =>
            obtain ⟨j, x⟩ := p
            have h1 : i + 1 + j = i + (j + 1) := by omega
            simp [first_bad, hb, hfb, h1]

theorem first_bad_eq_none_iff (p : α → Bool) (l : List α) :
    first_bad p l = none ↔ ∀ x ∈ l, p x = false := by
  induction l with
  | nil => simp [first_bad]
  | cons a l ih =>
    cases hp : p a
    · simp [first_bad, hp, ih]
    · simp [first_bad, hp]

theorem first_bad_isSome_of_mem (p : α → Bool) (l : List α) (i : Nat) (x : α)
    (hget : l.get? i = some x) (hx : p x = true) :
    ∃ j y, first_bad p l = some (j, y) := by
  cases hfb : first_bad p l with
  | none =>
    have hall := (first_bad_eq_none_iff p l).1 hfb
    have hmem : x ∈ l := List.get?_mem hget
    rw [hall x hmem] at hx
    exact absurd hx (by simp)
  | some q => exact ⟨q.1, q.2, by simp⟩

theorem first_bad_eq_of_prefix_good (p : α → Bool) (l : List α) (i : Nat) (x : α)
    (hget : l.get? i = some x) (hx : p x = true)
    (hpre : ∀ j y, j < i → l.get? j = some y → p y = false) :
    first_bad p l = some (i, x) := by
  induction l generalizing i with
  | nil => simp at hget
  | cons a l ih =>
    cases i with
    | zero =>
      simp only [List.get?] at hget
      cases hget
      simp [first_bad, hx]
    | succ i =>
      have ha : p a = false := hpre 0 a (Nat.succ_pos i) rfl
      have hrec := ih i (by simpa using hget)
        (fun j y hj hg => hpre (j + 1) y (by omega) (by simpa using hg))
      simp [first_bad, ha, hrec]

theorem lookup_last_eq_dget (d : Dict α) (k : String)
    (h : (dkeys d).Nodup) : lookup_last d k = dget d k := by
  induction d with
  | nil => rfl
  | cons a d ih =>
    have hd : (dkeys d).Nodup := (List.nodup_cons.1 (by simpa [dkeys] using h)).2
    have ha : a.1 ∉ dkeys d := (List.nodup_cons.1 (by simpa [dkeys] using h)).1
    show ofirst (lookup_last d k) _ = _
    rw [ih hd]
    cases hk : a.1 == k
    · simp only [beq_eq_false_iff_ne, ne_eq] at hk
      cases hg : dget d k <;> simp [ofirst, dget, hk, hg]
    · have hk2 : a.1 = k := by simpa using hk
      subst hk2
      have : dget d a.1 = none := (dget_eq_none_iff d a.1).2 ha
      simp [this, ofirst, dget]

theorem some_getD_of_contains (obj : Dict α) (t : String) (d : α)
    (h : dcontains obj t = true) : some ((dget obj t).getD d) = dget obj t := by
  cases hg : dget obj t with
  | none =>
    rw [dget_eq_none_iff] at hg
    rw [dcontains_iff_mem] at h
    exact absurd h hg
  | some v => rfl

theorem dget_text_prepop_aux (obj : Dict Json) (tks : List String) :
    ∀ (acc : Dict Json) (k : String),
      dget (tks.foldl
          (fun d t => if dcontains obj t then dset d t ((dget obj t).getD Json.null) else d)
          acc) k
        = if k ∈ tks ∧ dcontains obj k = true then dget obj k else dget acc k := by
  induction tks with
  | nil => simp
  | cons t tks ih =>
    intro acc k
    rw [List.foldl_cons, ih]
    by_cases hmem : k ∈ tks ∧ dcontains obj k = true
    · simp [hmem]
    · simp only [hmem, if_false]
      by_cases hco : dcontains obj t = true
      · rw [if_pos hco, dget_dset]
        by_cases hkt : k = t
        · subst hkt
          have hval := some_getD_of_contains obj k Json.null hco
          simp [hval, hco]
        · simp only [if_neg hkt]
          have hnot : ¬ (k ∈ t :: tks ∧ dcontains obj k = true) := by
            intro hand
            rcases hand with ⟨hin, hc⟩
            rcases List.mem_cons.1 hin with he | hin2
            · exact hkt he
            · exact hmem ⟨hin2, hc⟩
          rw [if_neg hnot]
      · rw [if_neg hco]
        have hnot : ¬ (k ∈ t :: tks ∧ dcontains obj k = true) := by
          intro hand
          rcases hand with ⟨hin, hc⟩
          rcases List.mem_cons.1 hin with he | hin2
          · exact hco (he ▸ hc)
          · exact hmem ⟨hin2, hc⟩
        rw [if_neg hnot]

theorem dget_text_prepop (tks : List String) (obj : Dict Json) (k : String) :
    dget (text_prepop tks obj) k
      = if k ∈ tks ∧ dcontains obj k = true then dget obj k else none := by
  rw [text_prepop, dget_text_prepop_aux]
  rfl

theorem dget_build_record (tks : List String) (obj : Dict Json)
    (h : (dkeys obj).Nodup) (k : String) :
    dget (build_record tks obj) k = dget obj k := by
  rw [build_record, dget_dupdate, lookup_last_eq_dget obj k h]
  cases hg : dget obj k with
  | some v => rfl
  | none =>
    show dget (text_prepop tks obj) k = none
    rw [dget_text_prepop]
    have hnc : ¬ (dcontains obj k = true) := by
      rw [dcontains_iff_mem]
      exact (dget_eq_none_iff obj k).1 hg
    simp [hnc]

theorem jsonl_entries_length (id_keys text_keys : List String) (lines : List JLine)
    (h : ∀ l ∈ lines, bad_line id_keys l = false) :
    (jsonl_entries id_keys text_keys lines).length
      = (lines.filter is_content_line).length := by
  induction lines with
  | nil => rfl
  | cons l rest ih =>
    have hrest : ∀ x ∈ rest, bad_line id_keys x = false :=
      fun x hx => h x (List.mem_cons_of_mem l hx)
    cases l with
    | blank =>
      simpa [jsonl_entries, line_entry, is_content_line, List.filterMap_cons,
        List.filter_cons] using ih hrest
    | invalid =>
      have := h JLine.invalid (List.mem_cons_self _ _)
      simp [bad_line] at this
    | parsed pairs =>
      have hb := h (JLine.parsed pairs) (List.mem_cons_self _ _)
      have htr : (first_id_val id_keys (dictOfPairs pairs)).truthy = true := by
        simpa [bad_line] using hb
      have hstep : jsonl_entries id_keys text_keys (JLine.parsed pairs :: rest)
          = ((first_id_val id_keys (dictOfPairs pairs)).pyStr,
              build_record text_keys (dictOfPairs pairs))
            :: jsonl_entries id_keys text_keys rest := by
        simp [jsonl_entries, List.filterMap_cons, line_entry, htr]
      have hfil : (JLine.parsed pairs :: rest).filter is_content_line
          = JLine.parsed pairs :: rest.filter is_content_line := by
        simp [List.filter_cons, is_content_line]
      rw [hstep, hfil]
      simp [ih hrest]

theorem or_chain_eq_find (doc : Dict Json) (ks : List String) :
    or_chain doc ks
      = ((ks.map (fun k => (dget doc k).getD Json.null)).find? Json.truthy).getD
          (Json.str "") := by
  induction ks with
  | nil => rfl
  | cons k ks ih =>
    cases htr : ((dget doc k).getD Json.null).truthy
    · simp [or_chain, htr, List.find?, ih]
    · simp [or_chain, htr, List.find?]

theorem first_id_val_eq_of_find (id_keys : List String) (obj : Dict Json) (k : String)
    (h : id_keys.find? (fun i => dcontains obj i) = some k) :
    first_id_val id_keys obj = (dget obj k).getD Json.null := by
  induction id_keys with
  | nil => simp [List.find?] at h
  | cons a rest ih =>
    cases hc : dcontains obj a
    · rw [List.find?_cons_of_neg _ (by simp [hc])] at h
      simp [first_id_val, hc, ih h]
    · rw [List.find?_cons_of_pos _ (by simp [hc])] at h
      cases h
      simp [first_id_val, hc]

theorem mem_set_add (s : List String) (x d : String) :
    d ∈ set_add s x ↔ d ∈ s ∨ d = x := by
  by_cases h : s.contains x
  · have hx : x ∈ s := by simpa using h
    simp only [set_add, h, if_pos]
    constructor
    · exact Or.inl
    · rintro (hd | rfl)
      · exact hd
      · exact hx
  · have hx : ¬ x ∈ s := by simpa using h
    simp [set_add, hx]

theorem mem_missing_docs_inner (corpus : Dict (Dict Json)) (docs : Dict Int) :
    ∀ (acc : List String) (d : String),
      d ∈ docs.foldl
          (fun acc2 dp => if dcontains corpus dp.1 then acc2 else set_add acc2 dp.1) acc
        ↔ d ∈ acc ∨ (d ∈ dkeys docs ∧ dcontains corpus d = false) := by
  induction docs with
  | nil =>
    intro acc d
    simp [dkeys]
  | cons p docs ih =>
    intro acc d
    have hkeys : dkeys (p :: docs) = p.1 :: dkeys docs := rfl
    rw [List.foldl_cons, ih, hkeys]
    cases hc : dcontains corpus p.1
    · rw [if_neg (show ¬ (false = true) by simp), mem_set_add]
      constructor
      · rintro ((hd | rfl) | hm)
        · exact Or.inl hd
        · exact Or.inr ⟨List.mem_cons_self _ _, hc⟩
        · exact Or.inr ⟨List.mem_cons_of_mem _ hm.1, hm.2⟩
      · rintro (hd | ⟨hin, hcf⟩)
        · exact Or.inl (Or.inl hd)
        · rcases List.mem_cons.1 hin with rfl | hin2
          · exact Or.inl (Or.inr rfl)
          · exact Or.inr ⟨hin2, hcf⟩
    · rw [if_pos rfl]
      constructor
      · rintro (hd | hm)
        · exact Or.inl hd
        · exact Or.inr ⟨List.mem_cons_of_mem _ hm.1, hm.2⟩
      · rintro (hd | ⟨hin, hcf⟩)
        · exact Or.inl hd
        · rcases List.mem_cons.1 hin with rfl | hin2
          · rw [hc] at hcf
            cases hcf
          · exact Or.inr ⟨hin2, hcf⟩

theorem mem_missing_docs (qrels : Dict (Dict Int)) (corpus : Dict (Dict Json)) (d : String) :
    d ∈ missing_docs qrels corpus
      ↔ (∃ p ∈ qrels, d ∈ dkeys p.2) ∧ dcontains corpus d = false := by
  have haux : ∀ (acc : List String),
      d ∈ qrels.foldl
          (fun acc p =>
            p.2.foldl (fun acc2 dp => if dcontains corpus dp.1 then acc2 else set_add acc2 dp.1) acc)
          acc
        ↔ d ∈ acc ∨ ((∃ p ∈ qrels, d ∈ dkeys p.2) ∧ dcontains corpus d = false) := by
    induction qrels with
    | nil => simp
    | cons p qrels ih =>
      intro acc
      rw [List.foldl_cons, ih, mem_missing_docs_inner]
      constructor
      · rintro ((hd | ⟨hin, hcf⟩) | ⟨⟨p2, hp2, hin2⟩, hcf⟩)
        · exact Or.inl hd
        · exact Or.inr ⟨⟨p, List.mem_cons_self _ _, hin⟩, hcf⟩
        · exact Or.inr ⟨⟨p2, List.mem_cons_of_mem _ hp2, hin2⟩, hcf⟩
      · rintro (hd | ⟨⟨p2, hp2, hin2⟩, hcf⟩)
        · exact Or.inl (Or.inl hd)
        · rcases List.mem_cons.1 hp2 with rfl | hp2m
          · exact Or.inl (Or.inr ⟨hin2, hcf⟩)
          · exact Or.inr ⟨⟨p2, hp2m, hin2⟩, hcf⟩
  simpa [missing_docs] using haux []

/-- Top-level form of the `load_jsonl` master lemma: the result is the
error at the first bad line (1-based), or the dict of all contributed
entries. -/
theorem load_jsonl_eq (path : String) (lines : List JLine) :
    load_jsonl path lines
      = match first_bad (bad_line default_id_keys) lines with
        | some (j, l) => Except.error (line_err path (1 + j) l)
        | none =>
          Except.ok (dictOfPairs (jsonl_entries default_id_keys default_text_keys lines)) := by
  rw [show load_jsonl path lines
        = load_jsonl_loop path default_id_keys default_text_keys lines 1 [] from rfl,
    load_jsonl_loop_eq]
  rfl

/-- Top-level form of the `load_qrels` master lemma. -/
theorem load_qrels_eq (path : String) (rows : List (List String)) :
    load_qrels path rows
      = match first_bad row_bad rows with
        | some (j, cols) => Except.error (row_err path (1 + j) cols)
        | none => Except.ok ((qrels_entries rows).foldl qrels_add []) := by
  rw [show load_qrels path rows = load_qrels_loop path rows 1 [] from rfl,
    load_qrels_loop_eq]

/-! ## Claim theorems -/

/-- C1 (counterexample): the claim says `load_jsonl` raises exactly when
a non-blank line is invalid JSON or the parsed object contains none of
the identifier fields, and for no other line content.  But a valid JSON
object that DOES contain the identifier field `_id`, with an empty
string as its value, is also rejected. -/
theorem C1_counterexample :
    load_jsonl "corpus.jsonl" [JLine.parsed [("_id", Json.str "")]]
        = Except.error (ParseErr.noId "corpus.jsonl" 1)
      ∧ dcontains (dictOfPairs [("_id", Json.str "")]) "_id" = true :=
  ⟨rfl, rfl⟩

/-- C1 (amended): `load_jsonl` raises a ParseError exactly when some
non-blank line is invalid JSON or the identifier the id-key loop
extracts from the parsed object (the value of the first present field
among `_id`, `id`; null when neither is present) is falsy; the error is
raised at the first such line, and it reports that line's 1-based number
and the file path.  No error is raised for any other line content. -/
theorem C1_load_jsonl_error_characterization (path : String) (lines : List JLine) :
    ((∃ items, load_jsonl path lines = Except.ok items)
        ↔ ∀ l ∈ lines, bad_line default_id_keys l = false)
    ∧ (∀ j l, first_bad (bad_line default_id_keys) lines = some (j, l) →
        load_jsonl path lines = Except.error (line_err path (1 + j) l)
          ∧ err_path (line_err path (1 + j) l) = path
          ∧ err_line (line_err path (1 + j) l) = 1 + j) := by
  constructor
  · constructor
    · rintro ⟨items, hok⟩
      rw [load_jsonl_eq] at hok
      cases hfb : first_bad (bad_line default_id_keys) lines with
      | none => exact (first_bad_eq_none_iff _ _).1 hfb
      | some q =>
        obtain ⟨j, l⟩ := q
        rw [hfb] at hok
        simp at hok
    · intro hall
      have hfb : first_bad (bad_line default_id_keys) lines = none :=
        (first_bad_eq_none_iff _ _).2 hall
      refine ⟨dictOfPairs (jsonl_entries default_id_keys default_text_keys lines), ?_⟩
      rw [load_jsonl_eq, hfb]
  · intro j l hfb
    refine ⟨?_, ?_, ?_⟩
    · rw [load_jsonl_eq, hfb]
    · cases l <;> rfl
    · cases l <;> rfl

/-- C1 (witness): on a file whose second line is invalid JSON, the error
is an invalid-JSON ParseError carrying the path and 1-based line 2. -/
theorem C1_witness :
    load_jsonl "corpus.jsonl" [JLine.blank, JLine.invalid]
        = Except.error (line_err "corpus.jsonl" (1 + 1) JLine.invalid)
      ∧ err_path (line_err "corpus.jsonl" (1 + 1) JLine.invalid) = "corpus.jsonl"
      ∧ err_line (line_err "corpus.jsonl" (1 + 1) JLine.invalid) = 1 + 1 :=
  (C1_load_jsonl_error_characterization "corpus.jsonl" [JLine.blank, JLine.invalid]).2
    1 JLine.invalid rfl

/-- C2 (confirmed): on any qrels row with at least 3 columns, the score
column (column 2, stripped) is parsed as a float and truncated to an
integer, and a row whose score does not parse raises a ParseError naming
the file, the 1-based line number and the offending value; in
particular "2.0" yields the integer 2, "3.7" yields 3, "abc" raises. -/
theorem C2_score_parsing (path c0 c1 sc : String) (rest : List String) :
    (load_qrels path [c0 :: c1 :: sc :: rest]
        = match parse_score (py_strip sc) with
          | some n => Except.ok [(py_strip c0, [(py_strip c1, n)])]
          | none => Except.error (ParseErr.badScore path 1 (py_strip sc)))
    ∧ load_qrels path [["q1", "d1", "2.0"]] = Except.ok [("q1", [("d1", 2)])]
    ∧ load_qrels path [["q1", "d1", "3.7"]] = Except.ok [("q1", [("d1", 3)])]
    ∧ load_qrels path [["q1", "d1", "abc"]]
        = Except.error (ParseErr.badScore path 1 "abc") := by
  refine ⟨?_, rfl, rfl, rfl⟩
  show load_qrels_loop path [c0 :: c1 :: sc :: rest] 1 [] = _
  have hlen : ¬ ((c0 :: c1 :: sc :: rest).length < 3) := by
    simp [List.length_cons]
  have hget2 : (c0 :: c1 :: sc :: rest).getD 2 "" = sc := rfl
  have hget1 : (c0 :: c1 :: sc :: rest).getD 1 "" = c1 := rfl
  have hget0 : (c0 :: c1 :: sc :: rest).getD 0 "" = c0 := rfl
  cases hps : parse_score (py_strip sc) with
  | none =>
    simp [load_qrels_loop, hlen, hget2, hps]
  | some n =>
    simp [load_qrels_loop, hlen, hget0, hget1, hget2, hps, qrels_add, dget, dset]

/-- C3 (confirmed): a non-empty row with fewer than 3 columns makes the
whole load fail with an error (no partial table); when it is the first
bad row, the error is the too-few-columns ParseError carrying the file
path, the row's 1-based line number, its column count and its content.
Empty rows are skipped: the loop treats `[] :: rows` at line `n`
exactly as `rows` starting at line `n + 1`. -/
theorem C3_short_row (path : String) (rows : List (List String)) (i : Nat)
    (cols : List String) (hget : rows.get? i = some cols)
    (hne : cols ≠ []) (hshort : cols.length < 3) :
    (∃ e, load_qrels path rows = Except.error e)
    ∧ ((∀ j cj, j < i → rows.get? j = some cj → row_bad cj = false) →
        load_qrels path rows = Except.error (ParseErr.tooFewCols path (i + 1) cols.length cols))
    ∧ (∀ (q : Dict (Dict Int)) (n : Nat),
        load_qrels_loop path ([] :: rows) n q = load_qrels_loop path rows (n + 1) q) := by
  have hbad : row_bad cols = true := by
    cases cols with
    | nil => exact absurd rfl hne
    | cons c cs =>
      have h3 : cs.length + 1 < 3 := by simpa using hshort
      simp [row_bad, h3]
  refine ⟨?_, ?_, ?_⟩
  · obtain ⟨j, y, hfb⟩ := first_bad_isSome_of_mem row_bad rows i cols hget hbad
    refine ⟨row_err path (1 + j) y, ?_⟩
    rw [load_qrels_eq, hfb]
  · intro hpre
    have hfb : first_bad row_bad rows = some (i, cols) :=
      first_bad_eq_of_prefix_good row_bad rows i cols hget hbad hpre
    rw [load_qrels_eq, hfb]
    have herr : row_err path (1 + i) cols = ParseErr.tooFewCols path (i + 1) cols.length cols := by
      rw [row_err, if_pos hshort, Nat.add_comm 1 i]
    show Except.error (row_err path (1 + i) cols) = _
    rw [herr]
  · intro q n
    rfl

/-- C3 (witness): the 2-column row `["q1", "d1"]` as the sole row makes
the load fail with a too-few-columns error at line 1 reporting 2
columns. -/
theorem C3_witness :
    (∃ e, load_qrels "qrels/test.tsv" [["q1", "d1"]] = Except.error e)
    ∧ load_qrels "qrels/test.tsv" [["q1", "d1"]]
        = Except.error (ParseErr.tooFewCols "qrels/test.tsv" (0 + 1) (["q1", "d1"] : List String).length ["q1", "d1"]) := by
  have h := C3_short_row "qrels/test.tsv" [["q1", "d1"]] 0 ["q1", "d1"] rfl
    (by simp) (by simp)
  exact ⟨h.1, h.2.1 (fun j cj hj _ => absurd hj (Nat.not_lt_zero j))⟩

/-- C4 (confirmed): the consistency check computes `missing_queries` as
exactly the qrels query ids absent from the queries mapping (a filter of
the qrels keys, hence in qrels iteration order) and `missing_docs` as
exactly the set of inner doc ids absent from the corpus; both are total
pure computations, and on qrels `{q1: {d1: 1}}`, corpus `{}`, queries
`{q1: {}}` they yield `{d1}` and `{}`. -/
theorem C4_consistency_checker :
    (∀ (qrels : Dict (Dict Int)) (queries : Dict (Dict Json)) (q : String),
        q ∈ missing_queries qrels queries
          ↔ q ∈ dkeys qrels ∧ dcontains queries q = false)
    ∧ (∀ (qrels : Dict (Dict Int)) (corpus : Dict (Dict Json)) (d : String),
        d ∈ missing_docs qrels corpus
          ↔ (∃ p ∈ qrels, d ∈ dkeys p.2) ∧ dcontains corpus d = false)
    ∧ (∀ (qrels : Dict (Dict Int)) (queries : Dict (Dict Json)),
        List.Sublist (missing_queries qrels queries) (dkeys qrels))
    ∧ missing_docs [("q1", [("d1", 1)])] ([] : Dict (Dict Json)) = ["d1"]
    ∧ missing_queries [("q1", [("d1", 1)])] [("q1", ([] : Dict Json))] = [] := by
  refine ⟨?_, mem_missing_docs, ?_, rfl, rfl⟩
  · intro qrels queries q
    rw [missing_queries, List.mem_filter]
    simp
  · intro qrels queries
    exact List.filter_sublist _

/-- C4 (witness): the characterization applied at the concrete example
of the claim. -/
theorem C4_witness :
    "d1" ∈ missing_docs [("q1", [("d1", 1)])] ([] : Dict (Dict Json))
      ↔ (∃ p ∈ ([("q1", [("d1", 1)])] : Dict (Dict Int)), "d1" ∈ dkeys p.2)
          ∧ dcontains ([] : Dict (Dict Json)) "d1" = false :=
  C4_consistency_checker.2.1 [("q1", [("d1", 1)])] ([] : Dict (Dict Json)) "d1"

/-- C6 (confirmed): on a successful load, the size of the returned
mapping equals the number of non-blank lines minus the number of
duplicate-id collisions (collisions = contributed keys minus distinct
contributed keys), and looking up any key yields the record of the LAST
line that produced that key (keys being the `str` coercion of the
extracted identifier, as `line_entry` records). -/
theorem C6_size_and_last_wins (path : String) (lines : List JLine)
    (items : Dict (Dict Json))
    (h : load_jsonl path lines = Except.ok items) :
    items.length
        + (((jsonl_entries default_id_keys default_text_keys lines).map Prod.fst).length
            - ((jsonl_entries default_id_keys default_text_keys lines).map Prod.fst).dedup.length)
      = (lines.filter is_content_line).length
    ∧ ∀ k, dget items k
        = lookup_last (jsonl_entries default_id_keys default_text_keys lines) k := by
  rw [load_jsonl_eq] at h
  cases hfb : first_bad (bad_line default_id_keys) lines with
  | some q =>
    obtain ⟨j, l⟩ := q
    rw [hfb] at h
    simp at h
  | none =>
    rw [hfb] at h
    have hitems : items = dictOfPairs (jsonl_entries default_id_keys default_text_keys lines) := by
      cases h
      rfl
    subst hitems
    constructor
    · rw [length_dictOfPairs]
      have hded : ((jsonl_entries default_id_keys default_text_keys lines).map Prod.fst).dedup.length
          ≤ ((jsonl_entries default_id_keys default_text_keys lines).map Prod.fst).length :=
        (List.dedup_sublist _).length_le
      have hlen : ((jsonl_entries default_id_keys default_text_keys lines).map Prod.fst).length
          = (jsonl_entries default_id_keys default_text_keys lines).length := by
        rw [List.length_map]
      rw [hlen] at hded ⊢
      have hcount : (jsonl_entries default_id_keys default_text_keys lines).length
          = (lines.filter is_content_line).length :=
        jsonl_entries_length default_id_keys default_text_keys lines
          ((first_bad_eq_none_iff _ _).1 hfb)
      omega
    · intro k
      exact dget_dictOfPairs _ k

/-- C6 (witness): a three-line file (a record, a blank line, a record
with the same id) loads to a single-entry mapping holding the later
record. -/
theorem C6_witness :
    ([("a", [("text", Json.str "t"), ("_id", Json.str "a")])] : Dict (Dict Json)).length
        + (((jsonl_entries default_id_keys default_text_keys
              [JLine.parsed [("_id", Json.str "a")], JLine.blank,
                JLine.parsed [("_id", Json.str "a"), ("text", Json.str "t")]]).map Prod.fst).length
            - ((jsonl_entries default_id_keys default_text_keys
              [JLine.parsed [("_id", Json.str "a")], JLine.blank,
                JLine.parsed [("_id", Json.str "a"), ("text", Json.str "t")]]).map Prod.fst).dedup.length)
      = ([JLine.parsed [("_id", Json.str "a")], JLine.blank,
          JLine.parsed [("_id", Json.str "a"), ("text", Json.str "t")]].filter is_content_line).length :=
  (C6_size_and_last_wins "corpus.jsonl"
    [JLine.parsed [("_id", Json.str "a")], JLine.blank,
      JLine.parsed [("_id", Json.str "a"), ("text", Json.str "t")]]
    [("a", [("text", Json.str "t"), ("_id", Json.str "a")])] rfl).1

/-- C7 (confirmed): the record is built by first populating exactly the
recognized text fields present in the source object (values taken from
the object, nothing inserted for absent fields), then overlaying every
original key/value pair, so every original field is present in the
record and original values win. -/
theorem C7_record_construction (pairs : List (String × Json)) (k : String) :
    (dget (text_prepop default_text_keys (dictOfPairs pairs)) k
        = if k ∈ default_text_keys ∧ dcontains (dictOfPairs pairs) k = true
          then dget (dictOfPairs pairs) k else none)
    ∧ (dcontains (dictOfPairs pairs) k = true →
        dget (build_record default_text_keys (dictOfPairs pairs)) k
            = dget (dictOfPairs pairs) k
          ∧ dcontains (build_record default_text_keys (dictOfPairs pairs)) k = true) := by
  constructor
  · exact dget_text_prepop default_text_keys (dictOfPairs pairs) k
  · intro hc
    have h1 := dget_build_record default_text_keys (dictOfPairs pairs)
      (nodup_dkeys_dictOfPairs pairs) k
    refine ⟨h1, ?_⟩
    rw [← dget_isSome_eq, h1, dget_isSome_eq, hc]

/-- C7 (witness): for a record with an id and a text field, the
pre-population holds exactly the text field, and the built record
returns the original value at `text`. -/
theorem C7_witness :
    dcontains (dictOfPairs [("_id", Json.str "d1"), ("text", Json.str "x")]) "text" = true
    ∧ dget (build_record default_text_keys
          (dictOfPairs [("_id", Json.str "d1"), ("text", Json.str "x")])) "text"
        = dget (dictOfPairs [("_id", Json.str "d1"), ("text", Json.str "x")]) "text" :=
  ⟨rfl,
    ((C7_record_construction [("_id", Json.str "d1"), ("text", Json.str "x")] "text").2 rfl).1⟩

/-- C9 (confirmed): the stored record is extensionally equal to the
parsed object: every key maps to the same value (so the same keys are
present), and the pre-population step changes no observable content. -/
theorem C9_record_extensional_equality (pairs : List (String × Json)) (k : String) :
    dget (build_record default_text_keys (dictOfPairs pairs)) k
        = dget (dictOfPairs pairs) k
    ∧ dcontains (build_record default_text_keys (dictOfPairs pairs)) k
        = dcontains (dictOfPairs pairs) k := by
  have h1 := dget_build_record default_text_keys (dictOfPairs pairs)
    (nodup_dkeys_dictOfPairs pairs) k
  exact ⟨h1, by rw [← dget_isSome_eq, ← dget_isSome_eq, h1]⟩

/-- C10 (confirmed): identifier extraction uses only the first
recognized identifier field present (`_id` before `id`), and a falsy
value there makes the loader raise the no-id ParseError at that line
even when a later identifier field holds a usable value. -/
theorem C10_falsy_first_id_rejected (path : String) (pairs : List (String × Json))
    (k : String)
    (hfind : default_id_keys.find? (fun i => dcontains (dictOfPairs pairs) i) = some k)
    (hfalsy : ((dget (dictOfPairs pairs) k).getD Json.null).truthy = false) :
    load_jsonl path [JLine.parsed pairs] = Except.error (ParseErr.noId path 1) := by
  have hval := first_id_val_eq_of_find default_id_keys (dictOfPairs pairs) k hfind
  show load_jsonl_loop path default_id_keys default_text_keys [JLine.parsed pairs] 1 [] = _
  simp [load_jsonl_loop, hval, hfalsy]

/-- C10 (witness): `{"_id": "", "id": "x"}` is rejected although the
later identifier field `id` holds a usable value. -/
theorem C10_witness :
    default_id_keys.find?
        (fun i => dcontains (dictOfPairs [("_id", Json.str ""), ("id", Json.str "x")]) i)
      = some "_id"
    ∧ ((dget (dictOfPairs [("_id", Json.str ""), ("id", Json.str "x")]) "_id").getD
        Json.null).truthy = false
    ∧ load_jsonl "queries.jsonl" [JLine.parsed [("_id", Json.str ""), ("id", Json.str "x")]]
        = Except.error (ParseErr.noId "queries.jsonl" 1) :=
  ⟨rfl, rfl,
    C10_falsy_first_id_rejected "queries.jsonl"
      [("_id", Json.str ""), ("id", Json.str "x")] "_id" rfl rfl⟩

theorem getD_mem_of_lt (l : List String) (i : Nat) (d : String) (h : i < l.length) :
    l.getD i d ∈ l := by
  simp only [List.getD]
  rw [List.get?_eq_getElem?, List.getElem?_eq_getElem h]
  exact List.getElem_mem h

/-- The claim's reading of the "primary text content": the value of the
first PRESENT field among the priority list, the empty string when none
is present.  Stated from the spec's words, for comparison with
`or_chain`, which is what the code computes. -/
def spec_first_present_text (doc : Dict Json) : List String → Json
  | [] => Json.str ""
  | k :: rest =>
    if dcontains doc k then (dget doc k).getD Json.null
    else spec_first_present_text doc rest

set_option maxRecDepth 4000 in
/-- C8 (counterexample): for a document whose `text` field is present
but empty and whose `contents` field is "hello", the reporter prints
"hello" — the first TRUTHY value — while the claim's "first present
field" reading would print the empty string. -/
theorem C8_counterexample :
    report_doc "d1"
        (dictOfPairs [("_id", Json.str "d1"), ("text", Json.str ""), ("contents", Json.str "hello")])
        = some ("d1", ["_id", "text", "contents"], Json.str "", Json.str "hello")
    ∧ spec_first_present_text
        (dictOfPairs [("_id", Json.str "d1"), ("text", Json.str ""), ("contents", Json.str "hello")])
        doc_text_keys
        = Json.str "" :=
  ⟨rfl, rfl⟩

/-- C8 (amended): when the corpus is non-empty, the reporter prints for
the sampled document its id, its field names, its title (empty string
when absent), and the first 400 characters of its primary text content,
where the primary text content is the first TRUTHY (non-falsy) value
among the fixed priority list text, contents, body, passage — the empty
string when none is truthy — and the 400-character cut applies when
that value is a string. -/
theorem C8_report_doc (corpus : Dict (Dict Json)) (pick : Nat) (h : corpus ≠ []) :
    ∃ docid doc,
      sample_keys corpus pick = [docid]
      ∧ dget corpus docid = some doc
      ∧ report_doc docid doc
          = (py_slice 400 (or_chain doc doc_text_keys)).map
              (fun t => (docid, dkeys doc, (dget doc "title").getD (Json.str ""), t))
      ∧ (∀ s, or_chain doc doc_text_keys = Json.str s →
          report_doc docid doc
            = some (docid, dkeys doc, (dget doc "title").getD (Json.str ""),
                Json.str (String.mk (s.toList.take 400))))
      ∧ or_chain doc doc_text_keys
          = ((doc_text_keys.map (fun k => (dget doc k).getD Json.null)).find?
              Json.truthy).getD (Json.str "") := by
  have hkeys : dkeys corpus ≠ [] := by
    cases corpus with
    | nil => exact absurd rfl h
    | cons p d => simp [dkeys]
  have hlen : 0 < (dkeys corpus).length := List.length_pos.2 hkeys
  have hlt : pick % (dkeys corpus).length < (dkeys corpus).length := Nat.mod_lt _ hlen
  set docid := (dkeys corpus).getD (pick % (dkeys corpus).length) "" with hdocid
  have hmem : docid ∈ dkeys corpus := getD_mem_of_lt _ _ _ hlt
  have hcont : dcontains corpus docid = true := (dcontains_iff_mem _ _).2 hmem
  have hsome : (dget corpus docid).isSome = true := by
    rw [dget_isSome_eq, hcont]
  obtain ⟨doc, hdoc⟩ := Option.isSome_iff_exists.1 hsome
  refine ⟨docid, doc, ?_, hdoc, rfl, ?_, or_chain_eq_find doc doc_text_keys⟩
  · rw [sample_keys]
    have hne : (dkeys corpus).isEmpty = false := by
      cases hk : dkeys corpus with
      | nil => exact absurd hk hkeys
      | cons a l => rfl
    simp only [hne, Bool.false_eq_true, if_false]
  · intro s hs
    rw [report_doc, hs]
    rfl

/-- C8 (witness): the amended statement applied to a one-document
corpus. -/
theorem C8_witness :
    ∃ docid doc,
      sample_keys ([("d1", [("text", Json.str "hi")])] : Dict (Dict Json)) 0 = [docid]
      ∧ dget ([("d1", [("text", Json.str "hi")])] : Dict (Dict Json)) docid = some doc
      ∧ report_doc docid doc
          = (py_slice 400 (or_chain doc doc_text_keys)).map
              (fun t => (docid, dkeys doc, (dget doc "title").getD (Json.str ""), t))
      ∧ (∀ s, or_chain doc doc_text_keys = Json.str s →
          report_doc docid doc
            = some (docid, dkeys doc, (dget doc "title").getD (Json.str ""),
                Json.str (String.mk (s.toList.take 400))))
      ∧ or_chain doc doc_text_keys
          = ((doc_text_keys.map (fun k => (dget doc k).getD Json.null)).find?
              Json.truthy).getD (Json.str "") :=
  C8_report_doc [("d1", [("text", Json.str "hi")])] 0 (by simp)

set_option maxRecDepth 4000 in
/-- C5 (counterexample): a dataset whose three files exist and all parse
(corpus `{"_id": "d1", "text": 5}`, empty queries, empty qrels) should
return exit code 0 per the claim, but main crashes: the sampled
document's primary text value is the number 5, and `text[:400]` raises
an uncaught TypeError, so an exception escapes to the caller. -/
theorem C5_counterexample :
    run_main ⟨true, true, true,
        [JLine.parsed [("_id", Json.str "d1"), ("text", Json.num 5)]], [], []⟩
        "data" "test" 0 = none
    ∧ missing_files ⟨true, true, true,
        [JLine.parsed [("_id", Json.str "d1"), ("text", Json.num 5)]], [], []⟩
        "data" "test" = []
    ∧ (∃ c, load_jsonl (corpus_path "data")
          [JLine.parsed [("_id", Json.str "d1"), ("text", Json.num 5)]] = Except.ok c)
    ∧ (∃ qs, load_jsonl (queries_path "data") [] = Except.ok qs)
    ∧ (∃ qr, load_qrels (qrels_path "data" "test") [] = Except.ok qr) :=
  ⟨rfl, rfl, ⟨_, rfl⟩, ⟨_, rfl⟩, ⟨_, rfl⟩⟩

/-- C5 (amended): main returns exit code 2 exactly when some expected
file is missing (the `missing_files` list it reports, checked before any
parse), exit code 1 exactly when nothing is missing and some loader
raises, and exit code 0 exactly when additionally the sample-document
printing does not raise — which requires the sampled document's primary
text value to be sliceable (a string or a list); otherwise an uncaught
TypeError escapes (`none`).  The consistency warnings never influence
the result: the characterization does not mention them. -/
theorem C5_exit_codes (fs : DatasetFS) (dp sp : String) (pick : Nat) :
    (run_main fs dp sp pick = some 2 ↔ missing_files fs dp sp ≠ [])
    ∧ (run_main fs dp sp pick = some 1
        ↔ missing_files fs dp sp = []
          ∧ ¬ ((∃ c, load_jsonl (corpus_path dp) fs.corpus_lines = Except.ok c)
              ∧ (∃ qs, load_jsonl (queries_path dp) fs.queries_lines = Except.ok qs)
              ∧ (∃ qr, load_qrels (qrels_path dp sp) fs.qrels_rows = Except.ok qr)))
    ∧ (run_main fs dp sp pick = some 0
        ↔ missing_files fs dp sp = []
          ∧ ∃ c, load_jsonl (corpus_path dp) fs.corpus_lines = Except.ok c
              ∧ (∃ qs, load_jsonl (queries_path dp) fs.queries_lines = Except.ok qs)
              ∧ (∃ qr, load_qrels (qrels_path dp sp) fs.qrels_rows = Except.ok qr)
              ∧ doc_sample_ok c pick = true)
    ∧ (run_main fs dp sp pick = none
        ↔ missing_files fs dp sp = []
          ∧ ∃ c, load_jsonl (corpus_path dp) fs.corpus_lines = Except.ok c
              ∧ (∃ qs, load_jsonl (queries_path dp) fs.queries_lines = Except.ok qs)
              ∧ (∃ qr, load_qrels (qrels_path dp sp) fs.qrels_rows = Except.ok qr)
              ∧ doc_sample_ok c pick = false) := by
  by_cases hm : missing_files fs dp sp = []
  · have hne : (missing_files fs dp sp).isEmpty = true := by rw [hm]; rfl
    cases hc : load_jsonl (corpus_path dp) fs.corpus_lines with
    | error e =>
      have hrun : run_main fs dp sp pick = some 1 := by
        simp [run_main, hne, hc]
      refine ⟨?_, ?_, ?_, ?_⟩ <;> rw [hrun] <;> simp [hm, hc]
    | ok c =>
      cases hq : load_jsonl (queries_path dp) fs.queries_lines with
      | error e =>
        have hrun : run_main fs dp sp pick = some 1 := by
          simp [run_main, hne, hc, hq]
        refine ⟨?_, ?_, ?_, ?_⟩ <;> rw [hrun] <;> simp [hm, hc, hq]
      | ok qs =>
        cases hr : load_qrels (qrels_path dp sp) fs.qrels_rows with
        | error e =>
          have hrun : run_main fs dp sp pick = some 1 := by
            simp [run_main, hne, hc, hq, hr]
          refine ⟨?_, ?_, ?_, ?_⟩ <;> rw [hrun] <;> simp [hm, hc, hq, hr]
        | ok qr =>
          cases hd : doc_sample_ok c pick with
          | true =>
            have hrun : run_main fs dp sp pick = some 0 := by
              simp [run_main, hne, hc, hq, hr, hd]
            refine ⟨?_, ?_, ?_, ?_⟩ <;> rw [hrun] <;> simp [hm, hc, hq, hr, hd]
          | false =>
            have hrun : run_main fs dp sp pick = none := by
              simp [run_main, hne, hc, hq, hr, hd]
            refine ⟨?_, ?_, ?_, ?_⟩ <;> rw [hrun] <;> simp [hm, hc, hq, hr, hd]
  · have hne : (missing_files fs dp sp).isEmpty = false := by
      cases hmf : missing_files fs dp sp with
      | nil => exact absurd hmf hm
      | cons a l => rfl
    have hrun : run_main fs dp sp pick = some 2 := by
      simp [run_main, hne]
    refine ⟨?_, ?_, ?_, ?_⟩ <;> rw [hrun] <;> simp [hm]

set_option maxRecDepth 4000 in
/-- C5 (witness): a complete well-formed one-document dataset gets exit
code 0 through the characterization. -/
theorem C5_witness :
    run_main ⟨true, true, true,
        [JLine.parsed [("_id", Json.str "d1"), ("text", Json.str "hello")]], [], []⟩
        "data" "test" 0 = some 0 :=
  (C5_exit_codes ⟨true, true, true,
      [JLine.parsed [("_id", Json.str "d1"), ("text", Json.str "hello")]], [], []⟩
    "data" "test" 0).2.2.1.mpr ⟨rfl, _, rfl, ⟨_, rfl⟩, ⟨_, rfl⟩, rfl⟩
